import Mathlib

/-!
Verification of the Jayz-Wayz workflow-execution core against its
specification.  The Python modules `state.py`, `langgraph_core.py`,
`policy.py`, `checkpoint.py` and `supervisor.py` are shallowly embedded:
pure data becomes Lean structures, in-place mutation becomes explicit
state passing, raised exceptions become explicit outcome constructors,
and the two I/O boundaries (the wall clock and the OPA HTTP transport)
become parameters.  Every definition mirrors the corresponding Python
function line by line; the trace components (invocation logs) are the
standard instrumentation needed to state "node X was never invoked".
-/

namespace JayzWayz

/-! ## Data model (`state.py`)

Python dict values that flow through the state and checkpoint metadata are
modelled by a small value type.  Nested containers never influence the
claimed properties (they are only stored and returned), so one level of
scalar values suffices for the fields the code inspects. -/

inductive MetaVal where
  | null
  | str (s : String)
  | num (n : Int)
  | boolean (b : Bool)
  deriving DecidableEq, Repr

/-- A Python `Dict[str, Any]` as an association list in insertion order.
Dicts built by the embedded code always have unique keys; lookup is
first match. -/
abbrev Dict := List (String × MetaVal)

/-- One FIPA-ACL message; the runner and the stores only carry these
through, never inspect them. -/
abbrev Message := Dict

/-- Python `d.get(k)`: the stored value, or `none` when the key is absent. -/
def dictGet (d : Dict) (k : String) : Option MetaVal :=
  match d with
  | [] => none
  | (k2, v) :: rest => if k2 == k then some v else dictGet rest k

/-- Python `d[k] = v`: replaces the value in place when the key exists
(keeping its position), else appends the pair. -/
def dictSet (d : Dict) (k : String) (v : MetaVal) : Dict :=
  match d with
  | [] => [(k, v)]
  | (k2, v2) :: rest =>
    if k2 == k then (k2, v) :: rest else (k2, v2) :: dictSet rest k v

/-- Python truthiness of an `Optional[str]`: `None` and the empty string
are falsy, every other string is truthy.  `langgraph_core.run_graph` and
`supervisor.run_conversation` test `state.error` this way. -/
def strOptTruthy : Option String → Bool
  | none => false
  | some s => !(s == "")

/-- `GraphState` from `state.py`: the mutable record threaded through a
run.  Mutation is modelled by producing an updated record. -/
structure GraphState where
  conversation_id : String
  messages : List Message := []
  metadata : Dict := []
  checkpoints : List String := []
  current_step : Option String := none
  error : Option String := none
  deriving DecidableEq, Repr

/-! ## Node executor (`langgraph_core.py`, `run_node`)

A node body invocation either returns a state (`ok`), raises a generic
exception (`exc`, carrying the in-place mutated state and the exception
message), or hits the `asyncio.wait_for` deadline (`timedOut`, likewise
carrying the mutated state; `str(asyncio.TimeoutError())` is the empty
string, which matters when `run_conditional` formats the re-raised
exception).  A Python callable may close over its own state and behave
differently on each call, so a node is indexed by the attempt number. -/

inductive AttemptOutcome where
  | ok (result : GraphState)
  | exc (mutated : GraphState) (msg : String)
  | timedOut (mutated : GraphState)

abbrev NodeFunc := Nat → GraphState → AttemptOutcome

/-- `RunnerConfig` from `langgraph_core.py`.  `retry_delay` only controls
the `asyncio.sleep` between attempts, which has no observable effect in
this embedding (and is a float), so it is not carried. -/
structure RunnerConfig where
  timeout : Nat := 30
  max_retries : Nat := 3
  deriving DecidableEq, Repr

/-- Result of `run_node`: a normal return, or a (re-)raised exception.
`raised` carries the state object as mutated by the failed attempts
(with `error` set by `run_node`) together with the `str` of the
re-raised exception, which `run_conditional` formats into its own
message. -/
inductive RunNodeResult where
  | success (result : GraphState)
  | raised (state : GraphState) (excMsg : String)
  deriving DecidableEq, Repr

/-- The retry loop of `run_node` (`for attempt in range(max_retries)`),
with `fuel` the number of loop iterations left (`max_retries - attempt`).
Besides the result it returns the invocation log: the pairs
(attempt index, state handed to the node body), one per body invocation.
Falling out of the loop (only possible when `max_retries = 0`) returns
the state unchanged, mirroring the final `return state`. -/
def run_node_go (cfg : RunnerConfig) (f : NodeFunc) (node_name : String) :
    Nat → Nat → GraphState → RunNodeResult × List (Nat × GraphState)
  | _, 0, s => (.success s, [])
  | attempt, fuel + 1, s =>
    match f attempt s with
    | .ok result => (.success result, [(attempt, s)])
    | .timedOut mutated =>
      if attempt == cfg.max_retries - 1 then
        (.raised { mutated with error := some ("Node '" ++ node_name ++
            "' timed out after " ++ toString cfg.timeout ++ "s") } "",
         [(attempt, s)])
      else
        let rest := run_node_go cfg f node_name (attempt + 1) fuel mutated
        (rest.1, (attempt, s) :: rest.2)
    | .exc mutated msg =>
      if attempt == cfg.max_retries - 1 then
        (.raised { mutated with error := some ("Node '" ++ node_name ++
            "' failed: " ++ msg) } msg,
         [(attempt, s)])
      else
        let rest := run_node_go cfg f node_name (attempt + 1) fuel mutated
        (rest.1, (attempt, s) :: rest.2)

/-- `AsyncGraphRunner.run_node`: sets `state.current_step = node_name`
first, then runs the retry loop. -/
def run_node (cfg : RunnerConfig) (f : NodeFunc) (state : GraphState)
    (node_name : String) : RunNodeResult × List (Nat × GraphState) :=
  run_node_go cfg f node_name 0 cfg.max_retries
    { state with current_step := some node_name }

/-! ## Graph runner (`run_graph`) -/

/-- Python `node_name in nodes` / `nodes[node_name]` on the node dict
(keys unique, so first match agrees with dict lookup). -/
def lookupNode (nodes : List (String × NodeFunc)) (k : String) :
    Option NodeFunc :=
  match nodes with
  | [] => none
  | (k2, f) :: rest => if k2 == k then some f else lookupNode rest k

/-- One trace entry per `run_node` call: the node name and that call's
invocation log. -/
abbrev GraphTrace := List (String × List (Nat × GraphState))

/-- The loop of `run_graph` over the order list, accumulating the trace
in reverse.  The membership test comes before the error test, exactly as
in the source; a `raised` result from `run_node` is caught (`except
Exception`) and breaks the loop with the mutated state. -/
def run_graph_go (cfg : RunnerConfig) (nodes : List (String × NodeFunc)) :
    List String → GraphState → GraphTrace → GraphState × GraphTrace
  | [], s, tr => (s, tr.reverse)
  | node_name :: rest, s, tr =>
    match lookupNode nodes node_name with
    | none =>
      ({ s with error := some ("Node '" ++ node_name ++ "' not found in graph") },
       tr.reverse)
    | some f =>
      if strOptTruthy s.error then (s, tr.reverse)
      else
        match run_node cfg f s node_name with
        | (.success s2, log) => run_graph_go cfg nodes rest s2 ((node_name, log) :: tr)
        | (.raised e _, log) => (e, (((node_name, log)) :: tr).reverse)

/-- `AsyncGraphRunner.run_graph`.  `node_order or list(nodes.keys())`
uses truthiness: both `None` and an empty list fall back to the dict's
key order. -/
def run_graph (cfg : RunnerConfig) (nodes : List (String × NodeFunc))
    (initial_state : GraphState) (node_order : Option (List String)) :
    GraphState × GraphTrace :=
  let order := match node_order with
    | some l => if l.isEmpty then nodes.map Prod.fst else l
    | none => nodes.map Prod.fst
  run_graph_go cfg nodes order initial_state []

/-! ## Conditional dispatch (`run_conditional`) -/

/-- Evaluating `condition_func(state)`: a boolean, or a raised exception;
either way the in-place mutated state is carried along. -/
inductive CondOutcome where
  | ok (mutated : GraphState) (value : Bool)
  | exc (mutated : GraphState) (msg : String)

abbrev ConditionFunc := GraphState → CondOutcome

/-- `AsyncGraphRunner.run_conditional`: evaluate the condition once,
dispatch to one branch via `run_node`; any exception from either step is
caught and turned into the conditional's own error message on the state. -/
def run_conditional (cfg : RunnerConfig) (condition_func : ConditionFunc)
    (true_node false_node : NodeFunc) (state : GraphState)
    (node_name : String := "conditional") : GraphState :=
  match condition_func state with
  | .exc mutated msg =>
    { mutated with error := some ("Conditional '" ++ node_name ++ "' failed: " ++ msg) }
  | .ok mutated condition =>
    let selected_node := if condition then true_node else false_node
    let branch_name := if condition then node_name ++ "_true" else node_name ++ "_false"
    match run_node cfg selected_node mutated branch_name with
    | (.success result, _) => result
    | (.raised e msg, _) =>
      { e with error := some ("Conditional '" ++ node_name ++ "' failed: " ++ msg) }

/-! ## Policy enforcement (`policy.py`)

An `enforce` call either returns a boolean decision or raises; a raised
exception is `.error` with the exception text.  An enforcer's behavior
is its `enforce` function. -/

abbrev Ctx := Option Dict

abbrev EnforceFun := String → String → Ctx → Except String Bool

/-- `LocalDenyEnforcer.enforce`: always deny, no I/O. -/
def localDenyEnforce : EnforceFun := fun _ _ _ => .ok false

/-- What the OPA server answers for one posted request: an HTTP reply
with a status and (when the body parses) the value of the boolean
`result` field, or a transport failure (`aiohttp.ClientError` /
`asyncio.TimeoutError`). -/
inductive HttpResponse where
  | reply (status : Nat) (resultField : Option Bool)
  | clientError (msg : String)

/-- The network: the server's response to `{"input": {action, resource,
context}}` for the given arguments. -/
abbrev HttpPost := String → String → Ctx → HttpResponse

/-- `OPAHttpPolicyEnforcer.enforce`: status 200 yields
`result.get("result", False)`; any other status yields deny; a transport
failure is re-raised (`except ...: raise`). -/
def opaHttpEnforce (net : HttpPost) (action resource : String) (context : Ctx) :
    Except String Bool :=
  match net action resource context with
  | .reply status resultField =>
    if status == 200 then .ok (resultField.getD false) else .ok false
  | .clientError msg => .error msg

/-- `CompositePolicyEnforcer.enforce`.  Besides the decision it returns
the list of argument triples the fallback was invoked with (the
instrumentation needed to state "never called" / "called exactly once"). -/
def compositeEnforce (primary fallback : EnforceFun)
    (action resource : String) (context : Ctx) :
    Except String Bool × List (String × String × Ctx) :=
  match primary action resource context with
  | .ok decision => (.ok decision, [])
  | .error _ => (fallback action resource context, [(action, resource, context)])

/-! ## Checkpoint store (`checkpoint.py`)

One JSON file per checkpoint id in a flat directory.  The store is the
directory contents: filename stem paired with the file's parsed content,
in directory-scan order.  `json.dump`/`json.load` round-trip faithfully,
so a written record is modelled as the record itself; a file that does
not parse is `corrupt`. -/

/-- `GraphState.to_dict()` output: a dict with exactly the six state
keys.  Modelled as a record to keep the keys and their types explicit. -/
structure StateDict where
  conversation_id : String
  messages : List Message
  metadata : Dict
  checkpoints : List String
  current_step : Option String
  error : Option String
  deriving DecidableEq, Repr

/-- `GraphState.to_dict`. -/
def GraphState.to_dict (s : GraphState) : StateDict :=
  { conversation_id := s.conversation_id
    messages := s.messages
    metadata := s.metadata
    checkpoints := s.checkpoints
    current_step := s.current_step
    error := s.error }

/-- `GraphState.from_dict`: reads the six keys back (a dict produced by
`to_dict` always carries all of them, so the `.get` defaults of the
source never fire on this representation). -/
def GraphState.from_dict (d : StateDict) : GraphState :=
  { conversation_id := d.conversation_id
    messages := d.messages
    metadata := d.metadata
    checkpoints := d.checkpoints
    current_step := d.current_step
    error := d.error }

/-- The persisted unit `{"state": ..., "metadata": ...}`. -/
structure CkptRecord where
  state : StateDict
  metadata : Dict
  deriving DecidableEq, Repr

inductive FileContent where
  | valid (record : CkptRecord)
  | corrupt
  deriving DecidableEq, Repr

abbrev Store := List (String × FileContent)

def storeGet (st : Store) (k : String) : Option FileContent :=
  match st with
  | [] => none
  | (k2, v) :: rest => if k2 == k then some v else storeGet rest k

/-- Writing `<k>.json`: overwrite the existing file or create a new one. -/
def storeSet (st : Store) (k : String) (v : FileContent) : Store :=
  match st with
  | [] => [(k, v)]
  | (k2, v2) :: rest =>
    if k2 == k then (k2, v) :: rest else (k2, v2) :: storeSet rest k v

/-- `CheckpointStore.save`: merge the caller metadata (`metadata or {}`)
with the generated `timestamp` and `checkpoint_id` fields, then write
the file.  `now` stands for `datetime.now(timezone.utc).isoformat()`. -/
def ckpt_save (store : Store) (checkpoint_id : String) (state : StateDict)
    (metadata : Option Dict) (now : String) : Store :=
  let md := metadata.getD []
  let md := dictSet md "timestamp" (.str now)
  let md := dictSet md "checkpoint_id" (.str checkpoint_id)
  storeSet store checkpoint_id (.valid { state := state, metadata := md })

/-- `CheckpointStore.load`: `none` for a missing id; a file that exists
but does not parse raises `json.JSONDecodeError`. -/
def ckpt_load (store : Store) (checkpoint_id : String) :
    Except String (Option CkptRecord) :=
  match storeGet store checkpoint_id with
  | none => .ok none
  | some .corrupt => .error "JSONDecodeError"
  | some (.valid record) => .ok (some record)

/-- One summary row built by `list_checkpoints`.  `timestamp` is
`metadata.get("timestamp")`, hence `none` (Python `None`) when the
stored metadata lacks the key; `checkpoint_id` falls back to the file
stem only when the key is absent. -/
structure CkptSummary where
  checkpoint_id : MetaVal
  timestamp : Option MetaVal
  conversation_id : String
  current_step : Option String
  metadata : Dict
  deriving DecidableEq, Repr

def mkSummary (stem : String) (record : CkptRecord) : CkptSummary :=
  { checkpoint_id := (dictGet record.metadata "checkpoint_id").getD (.str stem)
    timestamp := dictGet record.metadata "timestamp"
    conversation_id := record.state.conversation_id
    current_step := record.state.current_step
    metadata := record.metadata }

/-- The filter of `list_checkpoints`: `if conversation_id:` is a
truthiness test, so `None` and `""` disable filtering; otherwise keep
entries whose stored `conversation_id` matches. -/
def keepEntry (conversation_id : Option String) (record : CkptRecord) : Bool :=
  match conversation_id with
  | none => true
  | some c => if c == "" then true else record.state.conversation_id == c

/-- The scan loop of `list_checkpoints`: corrupt files are skipped
(`except (json.JSONDecodeError, IOError): continue`), filtered-out
entries likewise; the rest become summaries in scan order. -/
def gatherSummaries (conversation_id : Option String) : Store → List CkptSummary
  | [] => []
  | (_, .corrupt) :: rest => gatherSummaries conversation_id rest
  | (stem, .valid record) :: rest =>
    if keepEntry conversation_id record then
      mkSummary stem record :: gatherSummaries conversation_id rest
    else
      gatherSummaries conversation_id rest

/-- Sort key of `checkpoints.sort(key=lambda x: x.get("timestamp", ""),
reverse=True)`: the summary dict always carries the `timestamp` key, so
the `""` default is dead code and the key is the stored value itself.
This extractor is only meaningful on string timestamps (see
`list_checkpoints` for the non-string case). -/
def tsSortKey (s : CkptSummary) : String :=
  match s.timestamp with
  | some (.str t) => t
  | _ => ""

def keyIsStr (s : CkptSummary) : Bool :=
  match s.timestamp with
  | some (.str _) => true
  | _ => false

/-- Stable descending insertion by timestamp key: an element moves past
exactly the elements with a strictly smaller key, as Python's stable
`sort(..., reverse=True)` does. -/
def insertByTsDesc (x : CkptSummary) : List CkptSummary → List CkptSummary
  | [] => [x]
  | y :: ys =>
    if tsSortKey x < tsSortKey y then y :: insertByTsDesc x ys else x :: y :: ys

def sortByTsDesc : List CkptSummary → List CkptSummary
  | [] => []
  | x :: xs => insertByTsDesc x (sortByTsDesc xs)

/-- `CheckpointStore.list_checkpoints`.  When every sort key is a string
the sort succeeds (all timestamps written by `save` are ISO strings);
with two or more summaries of which at least one key is not a string —
in particular the `None` of a missing timestamp — every element takes
part in at least one comparison, and CPython raises `TypeError` on the
comparison with the non-string key, failing the whole call. -/
def list_checkpoints (store : Store) (conversation_id : Option String) :
    Except String (List CkptSummary) :=
  let checkpoints := gatherSummaries conversation_id store
  if checkpoints.length ≤ 1 || checkpoints.all keyIsStr then
    .ok (sortByTsDesc checkpoints)
  else
    .error "TypeError: '<' not supported between instances of 'NoneType' and 'str'"

/-! ## Supervisor (`supervisor.py`)

The supervisor composes runner, enforcer and store.  The two
nondeterministic inputs — the wall clock reading and the `uuid4` suffix —
are passed as parameters. -/

def optStrVal : Option String → MetaVal
  | none => .null
  | some s => .str s

/-- `Supervisor.save_checkpoint`: `checkpoint_id or f"{cid}_{uuid4().hex[:8]}"`
(truthiness: `None` and `""` both generate an id), then `save` with the
conversation metadata.  Returns the checkpoint id and the new store. -/
def save_checkpoint (store : Store) (state : GraphState)
    (checkpoint_id : Option String) (uuid_suffix : String) (now : String) :
    String × Store :=
  let cid := match checkpoint_id with
    | some c => if c == "" then state.conversation_id ++ "_" ++ uuid_suffix else c
    | none => state.conversation_id ++ "_" ++ uuid_suffix
  let metadata : Dict :=
    [("conversation_id", .str state.conversation_id),
     ("current_step", optStrVal state.current_step),
     ("message_count", .num (state.messages.length : Int))]
  (cid, ckpt_save store cid state.to_dict (some metadata) now)

/-- `Supervisor.run_conversation`.  `nodes` is the node dict the run uses
(the caller's `custom_nodes`, or the built default set when that is
`None`; the claims quantify over all node dicts, which covers both).
Returns the final state, the resulting store contents, and the graph
trace; `.error` is an exception propagating out of the enforcer. -/
def run_conversation (cfg : RunnerConfig) (enforcer : EnforceFun)
    (nodes : List (String × NodeFunc)) (store : Store)
    (conversation_id : String) (auto_checkpoint : Bool)
    (uuid_suffix : String) (now : String) :
    Except String (GraphState × Store × GraphTrace) :=
  match enforcer "execute" ("conversation/" ++ conversation_id)
      (some [("conversation_id", .str conversation_id)]) with
  | .error m => .error m
  | .ok allowed =>
    if !allowed then
      .ok ({ conversation_id := conversation_id,
             error := some "Policy denied conversation execution" }, store, [])
    else
      let initial_state : GraphState := { conversation_id := conversation_id }
      let run := run_graph cfg nodes initial_state (some (nodes.map Prod.fst))
      let final_state := run.1
      if auto_checkpoint && !(strOptTruthy final_state.error) then
        let saved := save_checkpoint store final_state none uuid_suffix now
        .ok ({ final_state with checkpoints := final_state.checkpoints ++ [saved.1] },
             saved.2, run.2)
      else
        .ok (final_state, store, run.2)

/-- Proof device: running a list of node names from a state, requiring
that every name is present, no truthy error is met, and every `run_node`
call returns normally.  Returns the final state and the accumulated
(reversed) trace, or `none` when any of that fails.  It repeats the body
of `run_graph_go` with `none` in place of each early exit, and
`run_prefix_append_go` ties the two together. -/
def run_prefix_nodes (cfg : RunnerConfig) (nodes : List (String × NodeFunc)) :
    List String → GraphState → GraphTrace → Option (GraphState × GraphTrace)
  | [], s, tr => some (s, tr)
  | node_name :: rest, s, tr =>
    match lookupNode nodes node_name with
    | none => none
    | some f =>
      if strOptTruthy s.error then none
      else
        match run_node cfg f s node_name with
        | (.success s2, log) => run_prefix_nodes cfg nodes rest s2 ((node_name, log) :: tr)
        | (.raised _ _, _) => none

/-! ## Sample data for the concrete instantiations -/

def sampleCfg : RunnerConfig := { timeout := 30, max_retries := 2 }

/-- A node that appends one message and succeeds on every attempt. -/
def appendMsgNode (txt : String) : NodeFunc := fun _ s =>
  .ok { s with messages := s.messages ++ [[("text", .str txt)]] }

/-- A node that raises `Exception(txt)` on every attempt without
mutating the state. -/
def alwaysFailNode (txt : String) : NodeFunc := fun _ s => .exc s txt

def sampleNodes : List (String × NodeFunc) :=
  [("a", appendMsgNode "a-ran"), ("b", alwaysFailNode "boom")]

def sampleState : GraphState := { conversation_id := "conv" }

/-- A sample enforcer that allows everything (for instantiations). -/
def allowAllEnforce : EnforceFun := fun _ _ _ => .ok true

/-- A sample persisted state snapshot (for instantiations). -/
def sampleSnapshot : StateDict :=
  { conversation_id := "conv", messages := [], metadata := [],
    checkpoints := [], current_step := none, error := none }

/-- One-step unfolding of the retry loop, for controlled rewriting. -/
lemma run_node_go_succ_eq (cfg : RunnerConfig) (f : NodeFunc) (name : String)
    (attempt n : Nat) (s : GraphState) :
    run_node_go cfg f name attempt (n + 1) s =
      match f attempt s with
      | .ok result => (.success result, [(attempt, s)])
      | .timedOut mutated =>
        if attempt == cfg.max_retries - 1 then
          (.raised { mutated with error := some ("Node '" ++ name ++
              "' timed out after " ++ toString cfg.timeout ++ "s") } "",
           [(attempt, s)])
        else
          ((run_node_go cfg f name (attempt + 1) n mutated).1,
           (attempt, s) :: (run_node_go cfg f name (attempt + 1) n mutated).2)
      | .exc mutated msg =>
        if attempt == cfg.max_retries - 1 then
          (.raised { mutated with error := some ("Node '" ++ name ++
              "' failed: " ++ msg) } msg,
           [(attempt, s)])
        else
          ((run_node_go cfg f name (attempt + 1) n mutated).1,
           (attempt, s) :: (run_node_go cfg f name (attempt + 1) n mutated).2) := rfl

/-! ## Helper lemmas -/

/-- A nonempty string is truthy for a Python `if s:` test. -/
lemma strOptTruthy_of_length_pos (u : String) (h : 0 < u.length) :
    strOptTruthy (some u) = true := by
  simp only [strOptTruthy, Bool.not_eq_true']
  rw [beq_eq_false_iff_ne]
  intro hb
  rw [hb] at h
  exact absurd h (by decide)

/-- Any state in a `raised` result of the retry loop carries a truthy
error message (both final-attempt branches write one that starts with
`Node '`). -/
lemma run_node_go_raised_truthy (cfg : RunnerConfig) (f : NodeFunc)
    (name : String) :
    ∀ fuel attempt s e m,
      (run_node_go cfg f name attempt fuel s).1 = .raised e m →
      strOptTruthy e.error = true := by
  intro fuel
  induction fuel with
  | zero => intro attempt s e m h; simp [run_node_go] at h
  | succ n ih =>
    intro attempt s e m h
    rcases hf : f attempt s with r | ⟨mu, msg⟩ | mu
    · rw [run_node_go_succ_eq, hf] at h
      simp at h
    · cases hfin : (attempt == cfg.max_retries - 1)
      · rw [run_node_go_succ_eq, hf] at h
        simp only [hfin, Bool.false_eq_true, if_false] at h
        exact ih (attempt + 1) mu e m h
      · rw [run_node_go_succ_eq, hf] at h
        simp only [hfin, if_true] at h
        simp only [RunNodeResult.raised.injEq] at h
        obtain ⟨hX, _⟩ := h
        rw [← hX]
        refine strOptTruthy_of_length_pos _ ?_
        have h6 : ("Node '" : String).length = 6 := rfl
        simp only [String.length_append]
        omega
    · cases hfin : (attempt == cfg.max_retries - 1)
      · rw [run_node_go_succ_eq, hf] at h
        simp only [hfin, Bool.false_eq_true, if_false] at h
        exact ih (attempt + 1) mu e m h
      · rw [run_node_go_succ_eq, hf] at h
        simp only [hfin, if_true] at h
        simp only [RunNodeResult.raised.injEq] at h
        obtain ⟨hX, _⟩ := h
        rw [← hX]
        refine strOptTruthy_of_length_pos _ ?_
        have h6 : ("Node '" : String).length = 6 := rfl
        simp only [String.length_append]
        omega

/-- `run_node` version of `run_node_go_raised_truthy`. -/
lemma run_node_raised_truthy (cfg : RunnerConfig) (f : NodeFunc)
    (s : GraphState) (name : String) (e : GraphState) (m : String)
    (log : List (Nat × GraphState))
    (h : run_node cfg f s name = (.raised e m, log)) :
    strOptTruthy e.error = true :=
  run_node_go_raised_truthy cfg f name cfg.max_retries 0
    { s with current_step := some name } e m
    (by rw [show run_node_go cfg f name 0 cfg.max_retries
        { s with current_step := some name } = (RunNodeResult.raised e m, log) from h])

/-- A successful prefix run lets `run_graph_go` be split at that point. -/
lemma run_prefix_append_go (cfg : RunnerConfig)
    (nodes : List (String × NodeFunc)) :
    ∀ pre s tr s2 tr2 rest,
      run_prefix_nodes cfg nodes pre s tr = some (s2, tr2) →
      run_graph_go cfg nodes (pre ++ rest) s tr = run_graph_go cfg nodes rest s2 tr2 := by
  intro pre
  induction pre with
  | nil =>
    intro s tr s2 tr2 rest h
    simp [run_prefix_nodes] at h
    rw [List.nil_append, h.1, h.2]
  | cons name pre ih =>
    intro s tr s2 tr2 rest h
    rcases hl : lookupNode nodes name with _ | f
    · simp [run_prefix_nodes, hl] at h
    · cases he : strOptTruthy s.error
      · rcases hrn : run_node cfg f s name with ⟨res, log⟩
        rcases res with s3 | ⟨e, m⟩
        · simp [run_prefix_nodes, hl, he, hrn] at h
          rw [List.cons_append]
          simp [run_graph_go, hl, he, hrn]
          exact ih _ _ _ _ rest h
        · simp [run_prefix_nodes, hl, he, hrn] at h
      · simp [run_prefix_nodes, hl, he] at h

/-- The names in the trace of a successful prefix run are exactly the
prefix, reversed onto the accumulator. -/
lemma run_prefix_names (cfg : RunnerConfig) (nodes : List (String × NodeFunc)) :
    ∀ pre s tr s2 tr2,
      run_prefix_nodes cfg nodes pre s tr = some (s2, tr2) →
      tr2.map Prod.fst = pre.reverse ++ tr.map Prod.fst := by
  intro pre
  induction pre with
  | nil =>
    intro s tr s2 tr2 h
    simp [run_prefix_nodes] at h
    rw [h.2]
    simp
  | cons name pre ih =>
    intro s tr s2 tr2 h
    rcases hl : lookupNode nodes name with _ | f
    · simp [run_prefix_nodes, hl] at h
    · cases he : strOptTruthy s.error
      · rcases hrn : run_node cfg f s name with ⟨res, log⟩
        rcases res with s3 | ⟨e, m⟩
        · simp [run_prefix_nodes, hl, he, hrn] at h
          rw [ih _ _ _ _ h]
          simp
        · simp [run_prefix_nodes, hl, he, hrn] at h
      · simp [run_prefix_nodes, hl, he] at h

/-- `run_graph` with an explicitly given nonempty order runs exactly
that order. -/
lemma run_graph_some_eq (cfg : RunnerConfig) (nodes : List (String × NodeFunc))
    (s0 : GraphState) (l : List String) (h : l.isEmpty = false) :
    run_graph cfg nodes s0 (some l) = run_graph_go cfg nodes l s0 [] := by
  simp [run_graph, h]

/-! ## C1 — run_graph halts at a node that fails its final attempt -/

/-- C1: for every node map, initial state and ordering, if execution
reaches position k (the nodes before it all present and returning
normally, state `s` there without a truthy error), the node named
`k_name` is present, and its `run_node` call raises (fails on its final
attempt), then `run_graph` returns exactly the raised state `e` — the
state threaded through nodes 1..k-1 and the partial mutations of node k,
with the recorded error — that error is non-empty, and the invocation
trace names exactly the nodes at positions 1..k, so the nodes at
positions k+1..n are never invoked. -/
theorem run_graph_halts_on_final_failure
    (cfg : RunnerConfig) (nodes : List (String × NodeFunc))
    (pre : List String) (k_name : String) (post : List String)
    (s0 s e : GraphState) (tr : GraphTrace) (f : NodeFunc) (m : String)
    (log : List (Nat × GraphState))
    (hpre : run_prefix_nodes cfg nodes pre s0 [] = some (s, tr))
    (hlook : lookupNode nodes k_name = some f)
    (herr : strOptTruthy s.error = false)
    (hfail : run_node cfg f s k_name = (.raised e m, log)) :
    run_graph cfg nodes s0 (some (pre ++ k_name :: post)) =
      (e, ((k_name, log) :: tr).reverse) ∧
    strOptTruthy e.error = true ∧
    (((k_name, log) :: tr).reverse).map Prod.fst = pre ++ [k_name] := by
  refine ⟨?_, run_node_raised_truthy cfg f s k_name e m log hfail, ?_⟩
  · rw [run_graph_some_eq cfg nodes s0 _ (by simp),
      run_prefix_append_go cfg nodes pre s0 [] s tr (k_name :: post) hpre]
    simp [run_graph_go, hlook, herr, hfail]
  · have hn := run_prefix_names cfg nodes pre s0 [] s tr hpre
    simp only [List.map_nil, List.append_nil] at hn
    simp [hn]

/-- C1 at a concrete input: node map `{a, b}` with order `[a, b, c]`
where `b` raises on both of its two attempts: the returned state keeps
`a`'s message and carries `b`'s error, and only `a` and `b` were ever
invoked. -/
theorem run_graph_halts_on_final_failure_witness :
    run_graph sampleCfg sampleNodes sampleState (some (["a"] ++ "b" :: ["c"])) =
      ({ conversation_id := "conv",
         messages := [[("text", .str "a-ran")]],
         current_step := some "b",
         error := some "Node 'b' failed: boom" },
       [("a", [(0, { conversation_id := "conv", current_step := some "a" })]),
        ("b", [(0, { conversation_id := "conv",
                     messages := [[("text", .str "a-ran")]],
                     current_step := some "b" }),
               (1, { conversation_id := "conv",
                     messages := [[("text", .str "a-ran")]],
                     current_step := some "b" })])]) ∧
    strOptTruthy (some "Node 'b' failed: boom") = true ∧
    ([("a", [(0, ({ conversation_id := "conv", current_step := some "a" } : GraphState))]),
      ("b", [(0, { conversation_id := "conv",
                   messages := [[("text", .str "a-ran")]],
                   current_step := some "b" }),
             (1, { conversation_id := "conv",
                   messages := [[("text", .str "a-ran")]],
                   current_step := some "b" })])] : GraphTrace).map Prod.fst =
      ["a"] ++ ["b"] :=
  run_graph_halts_on_final_failure sampleCfg sampleNodes ["a"] "b" ["c"]
    sampleState
    { conversation_id := "conv", messages := [[("text", .str "a-ran")]],
      current_step := some "a" }
    { conversation_id := "conv", messages := [[("text", .str "a-ran")]],
      current_step := some "b", error := some "Node 'b' failed: boom" }
    [("a", [(0, { conversation_id := "conv", current_step := some "a" })])]
    (alwaysFailNode "boom") "boom"
    [(0, { conversation_id := "conv", messages := [[("text", .str "a-ran")]],
           current_step := some "b" }),
     (1, { conversation_id := "conv", messages := [[("text", .str "a-ran")]],
           current_step := some "b" })]
    rfl rfl rfl rfl

/-! ## C2 — stopping on a pre-existing error

The claim says the first recorded failure message is never replaced,
including when the next name in the order is absent from the node map.
The source checks `node_name not in nodes` before `if state.error:`, so
in exactly that case the pre-existing error is overwritten by the
not-found message (the run still stops). -/

/-- C2 counterexample: an initial state already carrying error `boom`
and the order `[missing]` over an empty node map: `run_graph` stops, but
returns the not-found message instead of the first recorded failure. -/
theorem run_graph_error_replaced_cex :
    (run_graph { timeout := 30, max_retries := 3 } []
        { conversation_id := "c", error := some "boom" } (some ["missing"])).1.error =
      some "Node 'missing' not found in graph" ∧
    (run_graph { timeout := 30, max_retries := 3 } []
        { conversation_id := "c", error := some "boom" } (some ["missing"])).1.error ≠
      some "boom" :=
  ⟨rfl, by decide⟩

/-- C2 as amended: if `state.error` is already non-empty before the next
node would be invoked, `run_graph` stops at that point and invokes
nothing further; the error comes back unchanged when the next name is
present in the node map, but when the next name is absent the error is
replaced by the not-found message (execution still stops). -/
theorem run_graph_stops_on_preexisting_error
    (cfg : RunnerConfig) (nodes : List (String × NodeFunc))
    (pre : List String) (next_name : String) (post : List String)
    (s0 s : GraphState) (tr : GraphTrace)
    (hpre : run_prefix_nodes cfg nodes pre s0 [] = some (s, tr))
    (herr : strOptTruthy s.error = true) :
    (∀ f, lookupNode nodes next_name = some f →
      run_graph cfg nodes s0 (some (pre ++ next_name :: post)) = (s, tr.reverse)) ∧
    (lookupNode nodes next_name = none →
      run_graph cfg nodes s0 (some (pre ++ next_name :: post)) =
        ({ s with error := some ("Node '" ++ next_name ++ "' not found in graph") },
         tr.reverse)) := by
  constructor
  · intro f hl
    rw [run_graph_some_eq cfg nodes s0 _ (by simp),
      run_prefix_append_go cfg nodes pre s0 [] s tr (next_name :: post) hpre]
    simp [run_graph_go, hl, herr]
  · intro hl
    rw [run_graph_some_eq cfg nodes s0 _ (by simp),
      run_prefix_append_go cfg nodes pre s0 [] s tr (next_name :: post) hpre]
    simp [run_graph_go, hl, herr]

/-- C2 amended claim at a concrete input: a state whose error is already
set stops the run at the next position, error unchanged because the next
name is present. -/
theorem run_graph_stops_on_preexisting_error_witness :
    (∀ f, lookupNode sampleNodes "a" = some f →
      run_graph sampleCfg sampleNodes
          { conversation_id := "c", error := some "stop" } (some ([] ++ "a" :: [])) =
        ({ conversation_id := "c", error := some "stop" }, [])) ∧
    (lookupNode sampleNodes "a" = none →
      run_graph sampleCfg sampleNodes
          { conversation_id := "c", error := some "stop" } (some ([] ++ "a" :: [])) =
        ({ conversation_id := "c",
           error := some ("Node '" ++ "a" ++ "' not found in graph") }, [])) :=
  run_graph_stops_on_preexisting_error sampleCfg sampleNodes [] "a" []
    { conversation_id := "c", error := some "stop" }
    { conversation_id := "c", error := some "stop" } [] rfl rfl

/-! ## C3 — the retry loop of run_node -/

lemma getLast?_cons_of_ne_nil {α : Type _} (a : α) {l : List α} (h : l ≠ []) :
    (a :: l).getLast? = l.getLast? := by
  cases l with
  | nil => exact absurd rfl h
  | cons b t => simp [List.getLast?]

/-- Invariants of the retry loop, by induction on the remaining
iterations: at most `fuel` body invocations, the first one receiving the
incoming state at the current attempt index; a raise happens only when
all `fuel` invocations failed; a normal return hands back the value of
the one successful (last logged) invocation. -/
lemma run_node_go_spec (cfg : RunnerConfig) (f : NodeFunc) (name : String) :
    ∀ fuel attempt s, 1 ≤ fuel → attempt + fuel = cfg.max_retries →
      (run_node_go cfg f name attempt fuel s).2.length ≤ fuel ∧
      (run_node_go cfg f name attempt fuel s).2.head? = some (attempt, s) ∧
      (∀ e m, (run_node_go cfg f name attempt fuel s).1 = .raised e m →
        (run_node_go cfg f name attempt fuel s).2.length = fuel ∧
        ∀ p ∈ (run_node_go cfg f name attempt fuel s).2, ∀ r, f p.1 p.2 ≠ .ok r) ∧
      (∀ r, (run_node_go cfg f name attempt fuel s).1 = .success r →
        ∃ j inp, (run_node_go cfg f name attempt fuel s).2.getLast? = some (j, inp) ∧
          f j inp = .ok r) := by
  intro fuel
  induction fuel with
  | zero => intro attempt s h1; omega
  | succ n ih =>
    intro attempt s _ hmr
    rcases hf : f attempt s with r | ⟨mu, msg⟩ | mu
    · have hgo : run_node_go cfg f name attempt (n + 1) s =
          (.success r, [(attempt, s)]) := by
        simp [run_node_go, hf]
      rw [hgo]
      refine ⟨by simp, rfl, ?_, ?_⟩
      · intro e m hres
        simp at hres
      · intro r0 hres
        simp only [RunNodeResult.success.injEq] at hres
        exact ⟨attempt, s, rfl, by rw [hf, hres]⟩
    · cases n with
      | zero =>
        have hcond : (attempt == cfg.max_retries - 1) = true := by
          simp only [beq_iff_eq]
          omega
        have hgo : run_node_go cfg f name attempt 1 s =
            (.raised { mu with error := some ("Node '" ++ name ++
                "' failed: " ++ msg) } msg, [(attempt, s)]) := by
          simp [run_node_go, hf, hcond]
        rw [hgo]
        refine ⟨by simp, rfl, ?_, ?_⟩
        · intro e m hres
          refine ⟨rfl, ?_⟩
          intro p hp r
          simp only [List.mem_singleton] at hp
          rw [hp]
          simp [hf]
        · intro r0 hres
          simp at hres
      | succ k =>
        have hcond : (attempt == cfg.max_retries - 1) = false := by
          simp only [beq_eq_false_iff_ne]
          omega
        rcases hr : run_node_go cfg f name (attempt + 1) (k + 1) mu with ⟨res, lg⟩
        have hgo : run_node_go cfg f name attempt (k + 1 + 1) s =
            (res, (attempt, s) :: lg) := by
          rw [run_node_go_succ_eq, hf]
          simp [hcond, hr]
        have IH := ih (attempt + 1) mu (by omega) (by omega)
        rw [hr] at IH
        obtain ⟨IH1, IH2, IH3, IH4⟩ := IH
        have hlg : lg ≠ [] := by
          intro hc
          rw [hc] at IH2
          simp at IH2
        rw [hgo]
        have hx : lg.length ≤ k + 1 := IH1
        refine ⟨by simp; omega, rfl, ?_, ?_⟩
        · intro e m hres
          obtain ⟨hlen, hall⟩ := IH3 e m hres
          have hy : lg.length = k + 1 := hlen
          refine ⟨by simp [hy], ?_⟩
          intro p hp r
          rcases List.mem_cons.mp hp with hp1 | hp2
          · rw [hp1]
            simp [hf]
          · exact hall p hp2 r
        · intro r hres
          obtain ⟨j, inp, hlast, hok⟩ := IH4 r hres
          refine ⟨j, inp, ?_, hok⟩
          rw [getLast?_cons_of_ne_nil _ hlg, hlast]
    · cases n with
      | zero =>
        have hcond : (attempt == cfg.max_retries - 1) = true := by
          simp only [beq_iff_eq]
          omega
        have hgo : run_node_go cfg f name attempt 1 s =
            (.raised { mu with error := some ("Node '" ++ name ++
                "' timed out after " ++ toString cfg.timeout ++ "s") } "",
             [(attempt, s)]) := by
          simp [run_node_go, hf, hcond]
        rw [hgo]
        refine ⟨by simp, rfl, ?_, ?_⟩
        · intro e m hres
          refine ⟨rfl, ?_⟩
          intro p hp r
          simp only [List.mem_singleton] at hp
          rw [hp]
          simp [hf]
        · intro r0 hres
          simp at hres
      | succ k =>
        have hcond : (attempt == cfg.max_retries - 1) = false := by
          simp only [beq_eq_false_iff_ne]
          omega
        rcases hr : run_node_go cfg f name (attempt + 1) (k + 1) mu with ⟨res, lg⟩
        have hgo : run_node_go cfg f name attempt (k + 1 + 1) s =
            (res, (attempt, s) :: lg) := by
          rw [run_node_go_succ_eq, hf]
          simp [hcond, hr]
        have IH := ih (attempt + 1) mu (by omega) (by omega)
        rw [hr] at IH
        obtain ⟨IH1, IH2, IH3, IH4⟩ := IH
        have hlg : lg ≠ [] := by
          intro hc
          rw [hc] at IH2
          simp at IH2
        rw [hgo]
        have hx : lg.length ≤ k + 1 := IH1
        refine ⟨by simp; omega, rfl, ?_, ?_⟩
        · intro e m hres
          obtain ⟨hlen, hall⟩ := IH3 e m hres
          have hy : lg.length = k + 1 := hlen
          refine ⟨by simp [hy], ?_⟩
          intro p hp r
          rcases List.mem_cons.mp hp with hp1 | hp2
          · rw [hp1]
            simp [hf]
          · exact hall p hp2 r
        · intro r hres
          obtain ⟨j, inp, hlast, hok⟩ := IH4 r hres
          refine ⟨j, inp, ?_, hok⟩
          rw [getLast?_cons_of_ne_nil _ hlg, hlast]

/-- C3: with `max_retries = n ≥ 1`, `run_node` hands the node a state
whose `current_step` is the given name already on the first attempt,
invokes the node body at most n times, raises only when all n attempts
failed — and then the raised state's error is set (truthy) — and on a
successful attempt returns that attempt's result exactly as the node
produced it (so `run_node` itself sets no error on success). -/
theorem run_node_retry_spec (cfg : RunnerConfig) (f : NodeFunc) (s : GraphState)
    (name : String) (h : 1 ≤ cfg.max_retries) :
    (run_node cfg f s name).2.length ≤ cfg.max_retries ∧
    (run_node cfg f s name).2.head? =
      some (0, { s with current_step := some name }) ∧
    (∀ e m, (run_node cfg f s name).1 = .raised e m →
      (run_node cfg f s name).2.length = cfg.max_retries ∧
      strOptTruthy e.error = true ∧
      ∀ p ∈ (run_node cfg f s name).2, ∀ r, f p.1 p.2 ≠ .ok r) ∧
    (∀ r, (run_node cfg f s name).1 = .success r →
      ∃ j inp, (run_node cfg f s name).2.getLast? = some (j, inp) ∧
        f j inp = .ok r) := by
  have hgo := run_node_go_spec cfg f name cfg.max_retries 0
    { s with current_step := some name } h (by omega)
  have heq : run_node cfg f s name =
      run_node_go cfg f name 0 cfg.max_retries { s with current_step := some name } := rfl
  rw [heq]
  refine ⟨hgo.1, hgo.2.1, ?_, hgo.2.2.2⟩
  intro e m hres
  obtain ⟨hlen, hall⟩ := hgo.2.2.1 e m hres
  refine ⟨hlen, ?_, hall⟩
  exact run_node_go_raised_truthy cfg f name cfg.max_retries 0
    { s with current_step := some name } e m hres

/-- C3 at a concrete input: `max_retries = 2` and a node raising on both
attempts. -/
theorem run_node_retry_spec_witness :
    (run_node sampleCfg (alwaysFailNode "boom") sampleState "n").2.length ≤
      sampleCfg.max_retries ∧
    (run_node sampleCfg (alwaysFailNode "boom") sampleState "n").2.head? =
      some (0, { sampleState with current_step := some "n" }) ∧
    (∀ e m,
      (run_node sampleCfg (alwaysFailNode "boom") sampleState "n").1 = .raised e m →
      (run_node sampleCfg (alwaysFailNode "boom") sampleState "n").2.length =
        sampleCfg.max_retries ∧
      strOptTruthy e.error = true ∧
      ∀ p ∈ (run_node sampleCfg (alwaysFailNode "boom") sampleState "n").2,
        ∀ r, alwaysFailNode "boom" p.1 p.2 ≠ .ok r) ∧
    (∀ r,
      (run_node sampleCfg (alwaysFailNode "boom") sampleState "n").1 = .success r →
      ∃ j inp,
        (run_node sampleCfg (alwaysFailNode "boom") sampleState "n").2.getLast? =
          some (j, inp) ∧ alwaysFailNode "boom" j inp = .ok r) :=
  run_node_retry_spec sampleCfg (alwaysFailNode "boom") sampleState "n" (by decide)

/-! ## C4 — composite enforcer -/

/-- C4: if the primary enforcer returns normally (allow or deny), the
composite returns exactly that decision and the fallback is never
invoked (its invocation list is empty); if the primary raises, the
fallback is invoked exactly once, with the same three arguments, and its
result — decision or exception — is returned as the composite's own. -/
theorem compositeEnforce_spec (primary fallback : EnforceFun)
    (action resource : String) (context : Ctx) :
    (∀ b, primary action resource context = .ok b →
      compositeEnforce primary fallback action resource context = (.ok b, [])) ∧
    (∀ m, primary action resource context = .error m →
      compositeEnforce primary fallback action resource context =
        (fallback action resource context, [(action, resource, context)])) := by
  constructor
  · intro b hb
    simp [compositeEnforce, hb]
  · intro m hm
    simp [compositeEnforce, hm]

/-! ## C8 — remote policy enforcer -/

/-- C8: a 200 reply whose `result` field is the boolean `b` yields the
decision `b`; a reply with any other status yields deny; a transport or
timeout failure is not converted into a decision — it is re-raised to
the caller. -/
theorem opaHttpEnforce_spec (net : HttpPost) (action resource : String)
    (context : Ctx) :
    (∀ b, net action resource context = .reply 200 (some b) →
      opaHttpEnforce net action resource context = .ok b) ∧
    (∀ status rf, net action resource context = .reply status rf → status ≠ 200 →
      opaHttpEnforce net action resource context = .ok false) ∧
    (∀ m, net action resource context = .clientError m →
      opaHttpEnforce net action resource context = .error m) := by
  refine ⟨?_, ?_, ?_⟩
  · intro b hb
    simp [opaHttpEnforce, hb]
  · intro status rf hr hs
    simp [opaHttpEnforce, hr, hs]
  · intro m hm
    simp [opaHttpEnforce, hm]

/-! ## C9 — run_conditional catches everything -/

/-- C9: `run_conditional` is a total function on states — every
exception path of the source is caught inside it — and: an exception
while evaluating the condition yields the state mutated by the condition
with error `Conditional <name> failed: <cause>`; an exception surfaced
by `run_node` after the selected branch exhausted its retries yields the
raised state with its node-specific error overwritten by that same
conditional message, whose cause is the `str` of the re-raised
exception. -/
theorem run_conditional_catches (cfg : RunnerConfig) (cond : ConditionFunc)
    (true_node false_node : NodeFunc) (s : GraphState) (name : String) :
    (∀ mu msg, cond s = .exc mu msg →
      run_conditional cfg cond true_node false_node s name =
        { mu with error := some ("Conditional '" ++ name ++ "' failed: " ++ msg) }) ∧
    (∀ mu b e msg log, cond s = .ok mu b →
      run_node cfg (if b then true_node else false_node) mu
          (if b then name ++ "_true" else name ++ "_false") = (.raised e msg, log) →
      run_conditional cfg cond true_node false_node s name =
        { e with error := some ("Conditional '" ++ name ++ "' failed: " ++ msg) }) := by
  constructor
  · intro mu msg hc
    simp [run_conditional, hc]
  · intro mu b e msg log hc hrn
    cases b
    · simp only [if_false, Bool.false_eq_true] at hrn
      simp [run_conditional, hc, hrn]
    · simp only [if_true] at hrn
      simp [run_conditional, hc, hrn]

/-! ## C6 — checkpoint save→load round-trip -/

lemma dictGet_dictSet_self (d : Dict) (k : String) (v : MetaVal) :
    dictGet (dictSet d k v) k = some v := by
  induction d with
  | nil => simp [dictSet, dictGet]
  | cons p rest ih =>
    obtain ⟨k2, v2⟩ := p
    cases hk : (k2 == k)
    · simp [dictSet, dictGet, hk, ih]
    · simp [dictSet, dictGet, hk]

lemma dictGet_dictSet_other (d : Dict) (k k2 : String) (v : MetaVal)
    (h : k2 ≠ k) :
    dictGet (dictSet d k v) k2 = dictGet d k2 := by
  induction d with
  | nil => simp [dictSet, dictGet, Ne.symm h]
  | cons p rest ih =>
    obtain ⟨k3, v3⟩ := p
    cases hk : (k3 == k)
    · simp [dictSet, dictGet, hk, ih]
    · have hne : (k3 == k2) = false := by
        rw [beq_eq_false_iff_ne]
        rw [beq_iff_eq] at hk
        rw [hk]
        exact Ne.symm h
      simp [dictSet, dictGet, hk, hne]

lemma storeGet_storeSet_self (st : Store) (k : String) (v : FileContent) :
    storeGet (storeSet st k v) k = some v := by
  induction st with
  | nil => simp [storeSet, storeGet]
  | cons p rest ih =>
    obtain ⟨k2, v2⟩ := p
    cases hk : (k2 == k)
    · simp [storeSet, storeGet, hk, ih]
    · simp [storeSet, storeGet, hk]

/-- C6: loading an id right after saving under it returns a record whose
state is exactly the saved state and whose metadata carries every
caller-supplied field (apart from the two generated keys, which `save`
overwrites) together with `checkpoint_id` equal to the id and
`timestamp` equal to the clock reading taken during the save —
`datetime.now(timezone.utc).isoformat()`, a UTC ISO-8601 string. -/
theorem ckpt_save_load_roundtrip (store : Store) (checkpoint_id : String)
    (state : StateDict) (md : Dict) (now : String) :
    ∃ md2,
      ckpt_load (ckpt_save store checkpoint_id state (some md) now) checkpoint_id =
        .ok (some { state := state, metadata := md2 }) ∧
      dictGet md2 "checkpoint_id" = some (.str checkpoint_id) ∧
      dictGet md2 "timestamp" = some (.str now) ∧
      ∀ k v, k ≠ "timestamp" → k ≠ "checkpoint_id" →
        dictGet md k = some v → dictGet md2 k = some v := by
  refine ⟨dictSet (dictSet md "timestamp" (.str now)) "checkpoint_id"
    (.str checkpoint_id), ?_, ?_, ?_, ?_⟩
  · simp [ckpt_save, ckpt_load, storeGet_storeSet_self]
  · exact dictGet_dictSet_self _ _ _
  · rw [dictGet_dictSet_other _ _ _ _ (by decide)]
    exact dictGet_dictSet_self _ _ _
  · intro k v hkt hkc hget
    rw [dictGet_dictSet_other _ _ _ _ hkc, dictGet_dictSet_other _ _ _ _ hkt]
    exact hget

/-! ## C5 — policy denial is a frame effect -/

/-- C5: when the configured enforcer denies the `execute` action for the
conversation's resource, `run_conversation` returns a fresh state whose
error is the policy-denied message, the invocation trace is empty — no
node function is ever invoked — and the checkpoint store comes back
exactly as it was: no save occurs. -/
theorem run_conversation_policy_denied (cfg : RunnerConfig)
    (enforcer : EnforceFun) (nodes : List (String × NodeFunc)) (store : Store)
    (conversation_id : String) (auto_checkpoint : Bool)
    (uuid_suffix now : String)
    (hdeny : enforcer "execute" ("conversation/" ++ conversation_id)
        (some [("conversation_id", .str conversation_id)]) = .ok false) :
    run_conversation cfg enforcer nodes store conversation_id auto_checkpoint
        uuid_suffix now =
      .ok ({ conversation_id := conversation_id,
             error := some "Policy denied conversation execution" }, store, []) := by
  simp [run_conversation, hdeny]

/-- C5 at a concrete input: the default `LocalDenyEnforcer` denies, the
store stays empty and no node of the map runs. -/
theorem run_conversation_policy_denied_witness :
    run_conversation sampleCfg localDenyEnforce sampleNodes [] "conv" true
        "u1" "T1" =
      .ok ({ conversation_id := "conv",
             error := some "Policy denied conversation execution" }, [], []) :=
  run_conversation_policy_denied sampleCfg localDenyEnforce sampleNodes []
    "conv" true "u1" "T1" rfl

/-! ## C10 — the checkpoint id is appended only after the save -/

/-- C10: on an allowed run that ends without error and auto-checkpoints,
the snapshot is persisted before the generated checkpoint id is appended
to the state: the stored snapshot's `checkpoints` list is the pre-append
list — which, the uuid suffix being fresh (hypothesis `hfresh`), does
not contain the id of the checkpoint storing it — while the returned
state's list ends with exactly that id; a state restored from the
snapshot (`from_dict` of the stored state) therefore differs from the
returned state in exactly that one appended element. -/
theorem run_conversation_checkpoint_not_self (cfg : RunnerConfig)
    (enforcer : EnforceFun) (nodes : List (String × NodeFunc)) (store : Store)
    (conversation_id : String) (uuid_suffix now : String)
    (final : GraphState) (tr : GraphTrace)
    (hallow : enforcer "execute" ("conversation/" ++ conversation_id)
        (some [("conversation_id", .str conversation_id)]) = .ok true)
    (hrun : run_graph cfg nodes { conversation_id := conversation_id }
        (some (nodes.map Prod.fst)) = (final, tr))
    (hok : strOptTruthy final.error = false)
    (hfresh : (final.conversation_id ++ "_" ++ uuid_suffix) ∉ final.checkpoints) :
    ∃ record,
      run_conversation cfg enforcer nodes store conversation_id true
          uuid_suffix now =
        .ok ({ final with checkpoints :=
                 final.checkpoints ++ [final.conversation_id ++ "_" ++ uuid_suffix] },
             storeSet store (final.conversation_id ++ "_" ++ uuid_suffix)
               (.valid record),
             tr) ∧
      record.state = final.to_dict ∧
      GraphState.from_dict record.state = final ∧
      (final.conversation_id ++ "_" ++ uuid_suffix) ∉
        (GraphState.from_dict record.state).checkpoints ∧
      ({ final with checkpoints :=
           final.checkpoints ++ [final.conversation_id ++ "_" ++ uuid_suffix] } :
          GraphState) =
        { GraphState.from_dict record.state with
            checkpoints := (GraphState.from_dict record.state).checkpoints ++
              [final.conversation_id ++ "_" ++ uuid_suffix] } := by
  refine ⟨{ state := final.to_dict,
            metadata := dictSet (dictSet
              [("conversation_id", .str final.conversation_id),
               ("current_step", optStrVal final.current_step),
               ("message_count", .num (final.messages.length : Int))]
              "timestamp" (.str now))
              "checkpoint_id"
              (.str (final.conversation_id ++ "_" ++ uuid_suffix)) },
    ?_, rfl, rfl, hfresh, rfl⟩
  simp [run_conversation, hallow, hrun, hok, save_checkpoint, ckpt_save]

/-- C10 at a concrete input: one succeeding node, empty store, suffix
`u1`, clock reading `T1`. -/
theorem run_conversation_checkpoint_not_self_witness :
    ∃ record,
      run_conversation sampleCfg allowAllEnforce [("a", appendMsgNode "a-ran")]
          [] "conv" true "u1" "T1" =
        .ok ({ conversation_id := "conv",
               messages := [[("text", .str "a-ran")]],
               checkpoints := ["conv_u1"],
               current_step := some "a" },
             storeSet [] "conv_u1" (.valid record),
             [("a", [(0, { conversation_id := "conv", current_step := some "a" })])]) ∧
      record.state = GraphState.to_dict
        { conversation_id := "conv", messages := [[("text", .str "a-ran")]],
          current_step := some "a" } ∧
      GraphState.from_dict record.state =
        { conversation_id := "conv", messages := [[("text", .str "a-ran")]],
          current_step := some "a" } ∧
      "conv_u1" ∉ (GraphState.from_dict record.state).checkpoints ∧
      ({ conversation_id := "conv", messages := [[("text", .str "a-ran")]],
         checkpoints := ["conv_u1"], current_step := some "a" } : GraphState) =
        { GraphState.from_dict record.state with
            checkpoints := (GraphState.from_dict record.state).checkpoints ++
              ["conv_u1"] } :=
  run_conversation_checkpoint_not_self sampleCfg allowAllEnforce
    [("a", appendMsgNode "a-ran")] [] "conv" "u1" "T1"
    { conversation_id := "conv", messages := [[("text", .str "a-ran")]],
      current_step := some "a" }
    [("a", [(0, { conversation_id := "conv", current_step := some "a" })])]
    rfl rfl rfl (by decide)

/-! ## C7 — list_checkpoints with missing timestamps

The spec says a unit with no timestamp sorts last.  In the source the
summary dict always carries a `timestamp` key — `None` when the stored
metadata lacks it — so the `""` default in
`sort(key=lambda x: x.get("timestamp", ""), reverse=True)` can never
fire, and as soon as two summaries exist of which one has `None` there,
CPython raises `TypeError` out of `list_checkpoints` instead of sorting
the unit last.  The dead `""` default (which would sort exactly as the
spec says) marks the spec as the intent and the stored `None` as the
slip. -/

/-- C7: evaluating the code at the failing input — two parseable
checkpoint files whose metadata lacks `timestamp` — the call fails with
`TypeError` instead of returning them (missing timestamps last). -/
theorem list_checkpoints_missing_timestamp_raises :
    list_checkpoints
      [("c1", .valid { state := sampleSnapshot, metadata := [] }),
       ("c2", .valid { state := sampleSnapshot, metadata := [] })] none =
      .error "TypeError: '<' not supported between instances of 'NoneType' and 'str'" :=
  rfl

end JayzWayz
